import Mathlib

/-!
Shallow embedding of `utils/lib/rr_graph/channel.py`: the `Channel` segment
type and the `ChannelGrid` track-packing algorithm, together with theorems
about segment construction, the derived accessors, and `add_channel`.

Python integers are embedded as `Int`, track positions as `Nat`, per-cell
track lists as `List (Option Channel)` (a Python list whose entries are
`None` or a channel), and the grid dict as a total function
`Pos → List (Option Channel)` whose values outside the populated rectangle
`[0, sizeX) × [0, sizeY)` are never read or written (a lookup there raises
`KeyError` in Python, which the embedding models with an explicit bounds
check before the lookup).
-/

namespace RRGraph

/-- Modelled from the spec: `Pos`, an immutable integer point (x, y).  The
`Pos` namedtuple lives in the package `__init__`, which is not among the
sources; the spec describes a Point as an integer pair. -/
structure Pos where
  x : Int
  y : Int
deriving DecidableEq, Repr

/-- The two channel orientations (`Channel.Type` in the source): `X` is
`CHANX` (constant x coordinate, a column segment), `Y` is `CHANY`
(constant y coordinate, a row segment). -/
inductive ChannelType where
  | X
  | Y
deriving DecidableEq, Repr

/-- Channel direction (`Channel.Direction` in the source). -/
inductive ChannelDirection where
  | INC
  | DEC
deriving DecidableEq, Repr

/-- The error raised by `Channel.__new__` when the two endpoints share
neither coordinate (`ChannelNotStraight` in the source). -/
inductive NotStraightErr where
  | notStraight
deriving DecidableEq, Repr

/-- A channel segment: the namedtuple `Channel(start, end, idx)` plus the
`id_override` label attribute assigned in `__new__`.  The source's `end`
field is called `endp` here because `end` is reserved in Lean. -/
structure Channel where
  start : Pos
  endp : Pos
  idx : Option Int
  id_override : Option String
deriving DecidableEq, Repr

/-- `Channel.__new__`: fails with `ChannelNotStraight` when the endpoints
share neither coordinate, otherwise yields the segment record with the
given fields. -/
def mkChannel (start endp : Pos) (idx : Option Int) (id_override : Option String) :
    Except NotStraightErr Channel :=
  if start.x ≠ endp.x ∧ start.y ≠ endp.y then
    .error .notStraight
  else
    .ok ⟨start, endp, idx, id_override⟩

/-- `Channel.type`: `X` when the x coordinates agree, else `Y`.  The
source's second branch tests `start.y == end.y` and hits `assert False`
otherwise; every constructible channel is straight, so for those the
`else` branch below agrees with that test. -/
def Channel.type (c : Channel) : ChannelType :=
  if c.start.x = c.endp.x then .X else .Y

/-- `Channel.start0`: the non-constant start coordinate. -/
def Channel.start0 (c : Channel) : Int :=
  if c.type = .Y then c.start.x else c.start.y

/-- `Channel.end0`: the non-constant end coordinate. -/
def Channel.end0 (c : Channel) : Int :=
  if c.type = .Y then c.endp.x else c.endp.y

/-- `Channel.common`: the shared constant coordinate. -/
def Channel.common (c : Channel) : Int :=
  if c.type = .Y then c.start.y else c.start.x

/-- `Channel.direction`: `DEC` when `end0 < start0`, else `INC`. -/
def Channel.direction (c : Channel) : ChannelDirection :=
  if c.end0 < c.start0 then .DEC else .INC

/-- `Channel.length`: `abs(end0 - start0)`. -/
def Channel.length (c : Channel) : Int :=
  |c.end0 - c.start0|

/-- `Channel.update_idx`: a new channel with the same start/end/label and
the given index, built through the constructor (the source calls
`self.__class__(...)`, i.e. `__new__`, again). -/
def Channel.update_idx (c : Channel) (idx : Int) : Except NotStraightErr Channel :=
  mkChannel c.start c.endp (some idx) c.id_override

/-- A channel is straight when its endpoints share a coordinate; this is
exactly the condition under which `Channel.__new__` succeeds, so every
Python `Channel` instance satisfies it. -/
def Straight (c : Channel) : Prop :=
  c.start.x = c.endp.x ∨ c.start.y = c.endp.y

instance (c : Channel) : Decidable (Straight c) := by
  unfold Straight; infer_instance

theorem mkChannel_ok (start endp : Pos) (idx : Option Int) (lbl : Option String)
    (h : start.x = endp.x ∨ start.y = endp.y) :
    mkChannel start endp idx lbl = .ok ⟨start, endp, idx, lbl⟩ := by
  unfold mkChannel
  rcases h with h | h <;> simp [h]

theorem mkChannel_ok_elim {start endp : Pos} {idx : Option Int} {lbl : Option String}
    {c : Channel} (h : mkChannel start endp idx lbl = .ok c) :
    c = ⟨start, endp, idx, lbl⟩ := by
  unfold mkChannel at h
  split at h
  · exact absurd h (by simp)
  · exact (Except.ok.injEq _ _ ▸ h).symm

/-! ## The track grid -/

/-- The ways `ChannelGrid.add_channel` can abort: a failed `assert`
(`assertFail`), the explicit `TypeError` raised on an orientation
mismatch (`typeMismatch`), and the `KeyError` a dict lookup at a missing
key raises (`keyError`; the grid dict only holds keys inside its
rectangle). -/
inductive AddError where
  | assertFail
  | typeMismatch
  | keyError
deriving DecidableEq, Repr

/-- The track grid (`ChannelGrid`, a dict subclass): a mapping from `Pos`
to per-cell track lists, plus the grid size and orientation.  `cells` is a
total function whose values outside `[0, sizeX) × [0, sizeY)` are never
read or written. -/
structure ChannelGrid where
  sizeX : Nat
  sizeY : Nat
  chan_type : ChannelType
  cells : Pos → List (Option Channel)

/-- `ChannelGrid.__init__`: every populated cell starts as an empty track
list. -/
def ChannelGrid.empty (w h : Nat) (t : ChannelType) : ChannelGrid :=
  ⟨w, h, t, fun _ => []⟩

/-- `ChannelGrid.column(x)`: the cells `self[Pos(x, y)]` for `y` in
`range(self.y)`. -/
def ChannelGrid.column (g : ChannelGrid) (x : Int) : List (List (Option Channel)) :=
  List.map (fun y : Nat => g.cells ⟨x, (y : Int)⟩) (List.range g.sizeY)

/-- `ChannelGrid.row(y)`: the cells `self[Pos(x, y)]` for `x` in
`range(self.x)`. -/
def ChannelGrid.row (g : ChannelGrid) (y : Int) : List (List (Option Channel)) :=
  List.map (fun x : Nat => g.cells ⟨(x : Int), y⟩) (List.range g.sizeX)

/-- Modelled from the spec: `assert_len_eq` (from `lib.asserts`, not among
the sources) asserts that all the lists of a line have equal length — the
per-line "rectangular" check the spec describes. -/
def assert_len_eq (l : List (List (Option Channel))) : Bool :=
  match l with
  | [] => true
  | p :: rest => rest.all fun q => q.length == p.length

/-- Normalization of a Python slice endpoint: a negative index counts from
the end of the list (clamped below at 0), a non-negative one is clamped
above at the length. -/
def pySliceStart (n : Nat) (i : Int) : Nat :=
  if i < 0 then ((n : Int) + i).toNat else min i.toNat n

/-- Python's `l[a:b]`: the elements at positions `[norm a, norm b)`. -/
def pySlice {α : Type} (l : List α) (a b : Int) : List α :=
  (l.drop (pySliceStart l.length a)).take (pySliceStart l.length b - pySliceStart l.length a)

/-- Pad a track list with `None` entries up to length `m`
(`while len(p) < m: p.append(None)`). -/
def padTo (l : List (Option Channel)) (m : Nat) : List (Option Channel) :=
  l ++ List.replicate (m - l.length) none

/-- Whether some cell of the scanned range holds a channel at track `i`
(`p[max_idx] != None` for some `p`, after the `None` padding the loop
interleaves — padding only ever appends `None`, so it does not change
this predicate, and `p.getD i none` reads as `None` both a stored `None`
and a position beyond the current length). -/
def occAt (cells : List (List (Option Channel))) (i : Nat) : Bool :=
  cells.any fun p => (p.getD i none).isSome

/-- The `while True` search of `add_channel`, with explicit fuel: at
candidate `i`, if some scanned cell is occupied at `i`, restart the scan
at `i + 1`, else return `i`.  The source loop carries no fuel; the fuel
passed by `findIdx` is enough for the loop to finish first (see
`findIdxFuel_not_occ`), so the two agree. -/
def findIdxFuel (cells : List (List (Option Channel))) : Nat → Nat → Nat
  | 0, i => i
  | fuel + 1, i => if occAt cells i then findIdxFuel cells fuel (i + 1) else i

/-- The largest track-list length among the scanned cells; every candidate
index at or beyond it is unoccupied, which bounds the search. -/
def maxLen (cells : List (List (Option Channel))) : Nat :=
  cells.foldr (fun p m => max p.length m) 0

/-- The index found by the `while True` loop of `add_channel`. -/
def findIdx (cells : List (List (Option Channel))) : Nat :=
  findIdxFuel cells (maxLen cells + 1) 0

/-- The non-constant start coordinate (`start0`) as read through the
channel's `type` attribute, which inside `add_channel` always equals the
grid's type `t`: either it matched, or (zero-length mismatch) it was
overwritten with the grid's type. -/
def chanS0 (t : ChannelType) (c : Channel) : Int :=
  match t with
  | .Y => c.start.x
  | .X => c.start.y

/-- The non-constant end coordinate (`end0`) through the type attribute `t`. -/
def chanE0 (t : ChannelType) (c : Channel) : Int :=
  match t with
  | .Y => c.endp.x
  | .X => c.endp.y

/-- The constant coordinate (`common`) through the type attribute `t`. -/
def chanCommon (t : ChannelType) (c : Channel) : Int :=
  match t with
  | .Y => c.start.y
  | .X => c.start.x

/-- The normalized span start: `add_channel` swaps `s` and `e` when the
direction (through the type attribute `t`) is `DEC`. -/
def chanLo (t : ChannelType) (c : Channel) : Int :=
  if chanE0 t c < chanS0 t c then chanE0 t c else chanS0 t c

/-- The normalized span end (see `chanLo`). -/
def chanHi (t : ChannelType) (c : Channel) : Int :=
  if chanE0 t c < chanS0 t c then chanS0 t c else chanE0 t c

/-- Number of cells of an affected line: a column has `sizeY` cells, a row
`sizeX`. -/
def lineLen (g : ChannelGrid) (t : ChannelType) : Nat :=
  match t with
  | .X => g.sizeY
  | .Y => g.sizeX

/-- Valid range of the common coordinate: `column(x)` looks up keys with
that `x`, so it must lie in `[0, sizeX)`, and symmetrically for rows. -/
def lineBound (g : ChannelGrid) (t : ChannelType) : Nat :=
  match t with
  | .X => g.sizeX
  | .Y => g.sizeY

/-- The affected line of cells: `column(common)` or `row(common)`. -/
def gridLine (g : ChannelGrid) (t : ChannelType) (common : Int) :
    List (List (Option Channel)) :=
  match t with
  | .X => g.column common
  | .Y => g.row common

/-- The coordinate of a point along the affected line's axis. -/
def linePos (t : ChannelType) (q : Pos) : Int :=
  match t with
  | .X => q.y
  | .Y => q.x

/-- The coordinate of a point across the affected line's axis (the one the
whole line shares). -/
def crossPos (t : ChannelType) (q : Pos) : Int :=
  match t with
  | .X => q.x
  | .Y => q.y

/-- Whether `q` is one of the dict keys making up the line at the common
coordinate `common`: its cross coordinate is `common` and its position
along the line is inside the populated range. -/
def onLine (g : ChannelGrid) (t : ChannelType) (common : Int) (q : Pos) : Bool :=
  (crossPos t q == common)
    && decide (0 ≤ linePos t q) && decide (linePos t q < (lineLen g t : Int))

/-- The second half of `ChannelGrid.add_channel`, after the index
precondition and the orientation check: look up the affected line (the
dict lookups raise `KeyError` when the common coordinate is out of
range), check it is rectangular, check the span asserts, run the greedy
index search over the Python slice `l[s:e+1]`, then pad the whole line
and store the re-indexed channel over the slice.  The channel's type
attribute here is the grid's own type (it matched, or was overwritten on
the zero-length path), so all the derived coordinates are read through
`g.chan_type`. -/
def ChannelGrid.addChannelCore (g : ChannelGrid) (ch : Channel) :
    Except AddError (Channel × ChannelGrid) :=
  let t := g.chan_type
  let common := chanCommon t ch
  if ¬(0 ≤ common ∧ common < (lineBound g t : Int)) then .error .keyError
  else
    let l := gridLine g t common
    if ¬ assert_len_eq l then .error .assertFail
    else
      let s := chanLo t ch
      let e := chanHi t ch
      if ¬(s < (l.length : Int) ∧ e < (l.length : Int)) then .error .assertFail
      else
        let k := findIdx (pySlice l s (e + 1))
        match ch.update_idx (k : Int) with
        | .error _ => .error .assertFail
        | .ok ch2 =>
          let st := pySliceStart l.length s
          let en := pySliceStart l.length (e + 1)
          let newCells : Pos → List (Option Channel) := fun q =>
            if onLine g t common q then
              let pos := (linePos t q).toNat
              let padded := padTo (g.cells q) (k + 1)
              if st ≤ pos ∧ pos < en then padded.set k (some ch2) else padded
            else g.cells q
          .ok (ch2, { g with cells := newCells })

/-- `ChannelGrid.add_channel`: assert the incoming channel has no index
yet, raise `TypeError` when its orientation mismatches the grid's and its
length is non-zero (a zero-length mismatch instead has its type attribute
overwritten with the grid's type — `static_property` caching, modelled
from the spec, lets the assignment `ch.type = self.chan_type` go
through), then run the core placement. -/
def ChannelGrid.add_channel (g : ChannelGrid) (ch : Channel) :
    Except AddError (Channel × ChannelGrid) :=
  if ch.idx ≠ none then .error .assertFail
  else if ch.type ≠ g.chan_type ∧ ch.length ≠ 0 then .error .typeMismatch
  else g.addChannelCore ch

/-- Whether an `add_channel` call returned normally. -/
def addOk (g : ChannelGrid) (ch : Channel) : Bool :=
  match g.add_channel ch with
  | .ok _ => true
  | .error _ => false

/-- The index assigned by a successful `add_channel` call (`None` when the
call raised). -/
def addIdx (g : ChannelGrid) (ch : Channel) : Option Int :=
  match g.add_channel ch with
  | .ok (c, _) => c.idx
  | .error _ => none

/-- The finalized channel a successful `add_channel` call returns (the
input channel when the call raised). -/
def resChan (g : ChannelGrid) (ch : Channel) : Channel :=
  match g.add_channel ch with
  | .ok (c, _) => c
  | .error _ => ch

/-- The grid after a successful `add_channel` call (the unchanged grid
when the call raised: the orientation `TypeError` precedes every cell
mutation). -/
def nextGrid (g : ChannelGrid) (ch : Channel) : ChannelGrid :=
  match g.add_channel ch with
  | .ok (_, g') => g'
  | .error _ => g

/-- Whether `q` is one of the grid's populated keys. -/
def inDomain (g : ChannelGrid) (q : Pos) : Bool :=
  decide (0 ≤ q.x) && decide (q.x < (g.sizeX : Int))
    && decide (0 ≤ q.y) && decide (q.y < (g.sizeY : Int))

/-- Whether the grid cell `q` lies in the span a channel covers: `q` is on
the channel's line (through the type attribute `t`) and its position along
the line lies in the normalized span `[chanLo, chanHi]`. -/
def covers (t : ChannelType) (c : Channel) (q : Pos) : Bool :=
  (crossPos t q == chanCommon t c)
    && decide (chanLo t c ≤ linePos t q) && decide (linePos t q ≤ chanHi t c)

/-- The grid states reachable from a fresh grid by successful
`add_channel` calls, together with the list of finalized channels those
calls returned. -/
inductive ReachedWith : ChannelGrid → List Channel → Prop where
  | init (w h : Nat) (t : ChannelType) : ReachedWith (ChannelGrid.empty w h t) []
  | step {g : ChannelGrid} {chs : List Channel} {ch ch' : Channel} {g' : ChannelGrid} :
      ReachedWith g chs → g.add_channel ch = .ok (ch', g') → ReachedWith g' (chs ++ [ch'])

/-! ## Lemmas about the greedy index search -/

theorem occAt_false_iff {cells : List (List (Option Channel))} {i : Nat} :
    occAt cells i = false ↔ ∀ p ∈ cells, p.getD i none = none := by
  simp [occAt, Option.isSome_iff_ne_none]

theorem occAt_true_iff {cells : List (List (Option Channel))} {i : Nat} :
    occAt cells i = true ↔ ∃ p ∈ cells, (p.getD i none).isSome = true := by
  simp [occAt]

theorem getD_isSome_lt {p : List (Option Channel)} {i : Nat}
    (h : (p.getD i none).isSome = true) : i < p.length := by
  by_contra hn
  push_neg at hn
  rw [List.getD_eq_default _ _ hn] at h
  simp at h

theorem mem_le_maxLen {cells : List (List (Option Channel))} {p : List (Option Channel)}
    (h : p ∈ cells) : p.length ≤ maxLen cells := by
  unfold maxLen
  induction cells with
  | nil => cases h
  | cons q rest ih =>
    rcases List.mem_cons.mp h with rfl | hmem
    · exact le_max_left _ _
    · exact le_trans (ih hmem) (le_max_right _ _)

theorem occAt_lt_maxLen {cells : List (List (Option Channel))} {i : Nat}
    (h : occAt cells i = true) : i < maxLen cells := by
  obtain ⟨p, hmem, hsome⟩ := occAt_true_iff.mp h
  exact lt_of_lt_of_le (getD_isSome_lt hsome) (mem_le_maxLen hmem)

theorem findIdxFuel_not_occ {cells : List (List (Option Channel))} :
    ∀ (fuel i : Nat), maxLen cells ≤ fuel + i →
      occAt cells (findIdxFuel cells fuel i) = false := by
  intro fuel
  induction fuel with
  | zero =>
    intro i h
    show occAt cells i = false
    cases hocc : occAt cells i with
    | false => rfl
    | true => exact absurd (occAt_lt_maxLen hocc) (by omega)
  | succ fuel ih =>
    intro i h
    rw [findIdxFuel]
    cases hocc : occAt cells i with
    | true =>
      rw [if_pos rfl]
      exact ih (i + 1) (by omega)
    | false =>
      rwa [if_neg (by simp)]

theorem findIdxFuel_min {cells : List (List (Option Channel))} :
    ∀ (fuel i j : Nat), i ≤ j → j < findIdxFuel cells fuel i → occAt cells j = true := by
  intro fuel
  induction fuel with
  | zero =>
    intro i j hij hj
    rw [findIdxFuel] at hj
    omega
  | succ fuel ih =>
    intro i j hij hj
    rw [findIdxFuel] at hj
    cases hocc : occAt cells i with
    | true =>
      rw [if_pos hocc] at hj
      rcases Nat.eq_or_lt_of_le hij with rfl | hlt
      · exact hocc
      · exact ih (i + 1) j hlt hj
    | false =>
      rw [if_neg (by simp [hocc])] at hj
      omega

theorem findIdx_not_occ (cells : List (List (Option Channel))) :
    occAt cells (findIdx cells) = false :=
  findIdxFuel_not_occ _ _ (by omega)

theorem findIdx_min {cells : List (List (Option Channel))} {j : Nat}
    (h : j < findIdx cells) : occAt cells j = true :=
  findIdxFuel_min _ _ _ (Nat.zero_le j) h

/-! ## Lemmas about padding, setting and slicing -/

theorem padTo_length (l : List (Option Channel)) (m : Nat) :
    (padTo l m).length = max l.length m := by
  unfold padTo
  rw [List.length_append, List.length_replicate]
  omega

theorem padTo_getD_lt {l : List (Option Channel)} {j : Nat} (m : Nat) (h : j < l.length) :
    (padTo l m).getD j none = l.getD j none :=
  List.getD_append _ _ _ _ h

theorem replicate_getD (n i : Nat) (a : Option Channel) :
    (List.replicate n a).getD i a = a := by
  rcases Nat.lt_or_ge i n with h | h
  · rw [List.getD_eq_getElem _ _ (by simpa using h)]
    exact List.getElem_replicate _ _
  · exact List.getD_eq_default _ _ (by simpa using h)

theorem padTo_getD_ge {l : List (Option Channel)} {j : Nat} (m : Nat) (h : l.length ≤ j) :
    (padTo l m).getD j none = none := by
  unfold padTo
  rw [List.getD_append_right _ _ _ _ h]
  exact replicate_getD _ _ _

theorem getD_set_self {l : List (Option Channel)} {i : Nat} (a : Option Channel)
    (h : i < l.length) : (l.set i a).getD i none = a := by
  rw [List.getD_eq_getElem _ _ (by simpa using h)]
  exact List.getElem_set_self _

theorem getD_set_ne {l : List (Option Channel)} {i j : Nat} (a : Option Channel)
    (h : i ≠ j) : (l.set i a).getD j none = l.getD j none := by
  rcases Nat.lt_or_ge j l.length with hj | hj
  · rw [List.getD_eq_getElem _ _ (by simpa using hj), List.getD_eq_getElem _ _ hj]
    exact List.getElem_set_ne h _
  · rw [List.getD_eq_default _ _ (by simpa using hj), List.getD_eq_default _ _ hj]

theorem pySliceStart_le (n : Nat) (i : Int) : pySliceStart n i ≤ n := by
  unfold pySliceStart
  split
  · omega
  · exact min_le_right _ _

theorem pySliceStart_of_nonneg {n : Nat} {i : Int} (h0 : 0 ≤ i) (hn : i ≤ (n : Int)) :
    pySliceStart n i = i.toNat := by
  unfold pySliceStart
  rw [if_neg (by omega)]
  exact Nat.min_eq_left (by omega)

theorem mem_pySlice {α : Type} {l : List α} {a b : Int} {p : α} :
    p ∈ pySlice l a b ↔
      ∃ j : Nat, pySliceStart l.length a ≤ j ∧ j < pySliceStart l.length b ∧
        ∃ h : j < l.length, l[j] = p := by
  unfold pySlice
  constructor
  · intro hm
    rw [List.mem_iff_getElem] at hm
    obtain ⟨i, hi, hval⟩ := hm
    have hlen : ((l.drop (pySliceStart l.length a)).take
        (pySliceStart l.length b - pySliceStart l.length a)).length =
        min (pySliceStart l.length b - pySliceStart l.length a)
          (l.length - pySliceStart l.length a) := by
      rw [List.length_take, List.length_drop]
    rw [hlen] at hi
    have hi1 : i < pySliceStart l.length b - pySliceStart l.length a := by omega
    have hi2 : i < l.length - pySliceStart l.length a := by omega
    refine ⟨pySliceStart l.length a + i, Nat.le_add_right _ _, by omega, by omega, ?_⟩
    rw [List.getElem_take, List.getElem_drop] at hval
    exact hval
  · rintro ⟨j, hja, hjb, hjl, hval⟩
    rw [List.mem_iff_getElem]
    have hlen : ((l.drop (pySliceStart l.length a)).take
        (pySliceStart l.length b - pySliceStart l.length a)).length =
        min (pySliceStart l.length b - pySliceStart l.length a)
          (l.length - pySliceStart l.length a) := by
      rw [List.length_take, List.length_drop]
    refine ⟨j - pySliceStart l.length a, by omega, ?_⟩
    rw [List.getElem_take, List.getElem_drop]
    have : pySliceStart l.length a + (j - pySliceStart l.length a) = j := by omega
    simp only [this]
    exact hval

/-! ## Lemmas about lines and positions -/

/-- The dict key of the cell at position `j` along the line with common
coordinate `common`. -/
def posAt (t : ChannelType) (common : Int) (j : Nat) : Pos :=
  match t with
  | .X => ⟨common, (j : Int)⟩
  | .Y => ⟨(j : Int), common⟩

theorem gridLine_length (g : ChannelGrid) (t : ChannelType) (c : Int) :
    (gridLine g t c).length = lineLen g t := by
  cases t <;>
    simp only [gridLine, lineLen, ChannelGrid.column, ChannelGrid.row,
      List.length_map, List.length_range]

theorem gridLine_getElem (g : ChannelGrid) (t : ChannelType) (c : Int) (j : Nat)
    (h : j < (gridLine g t c).length) :
    (gridLine g t c)[j] = g.cells (posAt t c j) := by
  cases t <;>
    simp only [gridLine, ChannelGrid.column, ChannelGrid.row, posAt,
      List.getElem_map, List.getElem_range]

theorem linePos_posAt (t : ChannelType) (c : Int) (j : Nat) :
    linePos t (posAt t c j) = (j : Int) := by
  cases t <;> simp only [linePos, posAt]

theorem onLine_posAt {g : ChannelGrid} {t : ChannelType} {c : Int} {j : Nat}
    (h : j < lineLen g t) : onLine g t c (posAt t c j) = true := by
  cases t <;>
    simp only [onLine, posAt, linePos, crossPos, Bool.and_eq_true, beq_iff_eq,
      decide_eq_true_eq] <;>
    refine ⟨⟨by trivial, by omega⟩, by omega⟩

theorem onLine_elim {g : ChannelGrid} {t : ChannelType} {c : Int} {q : Pos}
    (h : onLine g t c q = true) :
    0 ≤ linePos t q ∧ (linePos t q).toNat < lineLen g t ∧
      posAt t c (linePos t q).toNat = q := by
  cases t with
  | X =>
    cases q with
    | mk qx qy =>
      simp only [onLine, linePos, crossPos, Bool.and_eq_true, beq_iff_eq,
        decide_eq_true_eq] at h
      obtain ⟨⟨h1, h2⟩, h3⟩ := h
      have h4 : ((qy.toNat : Int)) = qy := Int.toNat_of_nonneg h2
      simp only [linePos, posAt, Pos.mk.injEq]
      exact ⟨h2, by omega, h1.symm, h4⟩
  | Y =>
    cases q with
    | mk qx qy =>
      simp only [onLine, linePos, crossPos, Bool.and_eq_true, beq_iff_eq,
        decide_eq_true_eq] at h
      obtain ⟨⟨h1, h2⟩, h3⟩ := h
      have h4 : ((qx.toNat : Int)) = qx := Int.toNat_of_nonneg h2
      simp only [linePos, posAt, Pos.mk.injEq]
      exact ⟨h2, by omega, h4, h1.symm⟩

/-! ## Elimination principle for successful placements -/

/-- The affected line of a placement into `g` (the channel's type
attribute equals the grid's type throughout `add_channel`'s body). -/
def theLine (g : ChannelGrid) (ch : Channel) : List (List (Option Channel)) :=
  gridLine g g.chan_type (chanCommon g.chan_type ch)

/-- The track index the greedy search of `add_channel` settles on. -/
def theK (g : ChannelGrid) (ch : Channel) : Nat :=
  findIdx (pySlice (theLine g ch) (chanLo g.chan_type ch) (chanHi g.chan_type ch + 1))

/-- The normalized start position of the Python slice `l[s:e+1]`. -/
def theSt (g : ChannelGrid) (ch : Channel) : Nat :=
  pySliceStart (theLine g ch).length (chanLo g.chan_type ch)

/-- The normalized stop position of the Python slice `l[s:e+1]`. -/
def theEn (g : ChannelGrid) (ch : Channel) : Nat :=
  pySliceStart (theLine g ch).length (chanHi g.chan_type ch + 1)

/-- Everything a successful `add_channel` call guarantees: the
preconditions it checked on the way, the shape of the returned channel,
and the pointwise description of the updated grid. -/
structure AddPost (g : ChannelGrid) (ch ch' : Channel) (g' : ChannelGrid) : Prop where
  idx_none : ch.idx = none
  type_ok : ch.type = g.chan_type ∨ ch.length = 0
  common_lb : 0 ≤ chanCommon g.chan_type ch
  common_ub : chanCommon g.chan_type ch < (lineBound g g.chan_type : Int)
  rect : assert_len_eq (theLine g ch) = true
  lo_lt : chanLo g.chan_type ch < ((theLine g ch).length : Int)
  hi_lt : chanHi g.chan_type ch < ((theLine g ch).length : Int)
  ch'_eq : ch' = ⟨ch.start, ch.endp, some (theK g ch : Int), ch.id_override⟩
  sizeX_eq : g'.sizeX = g.sizeX
  sizeY_eq : g'.sizeY = g.sizeY
  type_eq : g'.chan_type = g.chan_type
  cells_eq : ∀ q : Pos, g'.cells q =
    if onLine g g.chan_type (chanCommon g.chan_type ch) q then
      if theSt g ch ≤ (linePos g.chan_type q).toNat ∧
          (linePos g.chan_type q).toNat < theEn g ch
      then (padTo (g.cells q) (theK g ch + 1)).set (theK g ch) (some ch')
      else padTo (g.cells q) (theK g ch + 1)
    else g.cells q

theorem add_channel_ok_elim {g : ChannelGrid} {ch ch' : Channel} {g' : ChannelGrid}
    (h : g.add_channel ch = .ok (ch', g')) : AddPost g ch ch' g' := by
  unfold ChannelGrid.add_channel at h
  split at h
  · exact absurd h (by simp)
  case isFalse h1 =>
  split at h
  · exact absurd h (by simp)
  case isFalse h2 =>
  unfold ChannelGrid.addChannelCore at h
  simp only [] at h
  split at h
  · exact absurd h (by simp)
  case isFalse h3 =>
  split at h
  · exact absurd h (by simp)
  case isFalse h4 =>
  split at h
  · exact absurd h (by simp)
  case isFalse h5 =>
  split at h
  case h_1 e heq => exact absurd h (by simp)
  case h_2 ch2 heq =>
  rw [Except.ok.injEq, Prod.mk.injEq] at h
  obtain ⟨hch, hg⟩ := h
  subst hch
  subst hg
  push_neg at h1 h2 h3 h4 h5
  have hch2 : ch2 = ⟨ch.start, ch.endp, some (theK g ch : Int), ch.id_override⟩ :=
    mkChannel_ok_elim heq
  refine ⟨h1, ?_, h3.1, h3.2, by simpa using h4, h5.1, h5.2, hch2, rfl, rfl, rfl, ?_⟩
  · by_cases ht : ch.type = g.chan_type
    · exact Or.inl ht
    · exact Or.inr (h2 ht)
  · intro q
    simp only [theSt, theEn, theK, theLine]

/-! ## Bridging the Python slice to claim-level covered cells -/

/-- The cells scanned (and later written) by a placement: the Python slice
`l[s:e+1]` of the affected line. -/
def theSpan (g : ChannelGrid) (ch : Channel) : List (List (Option Channel)) :=
  pySlice (theLine g ch) (chanLo g.chan_type ch) (chanHi g.chan_type ch + 1)

theorem theK_eq (g : ChannelGrid) (ch : Channel) : theK g ch = findIdx (theSpan g ch) := rfl

theorem chanLo_le_chanHi (t : ChannelType) (c : Channel) : chanLo t c ≤ chanHi t c := by
  unfold chanLo chanHi
  split <;> omega

theorem onLine_iff {g : ChannelGrid} {t : ChannelType} {common : Int} {q : Pos} :
    onLine g t common q = true ↔
      crossPos t q = common ∧ 0 ≤ linePos t q ∧ linePos t q < (lineLen g t : Int) := by
  simp [onLine, Bool.and_eq_true, and_assoc]

theorem covers_iff {t : ChannelType} {c : Channel} {q : Pos} :
    covers t c q = true ↔
      crossPos t q = chanCommon t c ∧ chanLo t c ≤ linePos t q ∧ linePos t q ≤ chanHi t c := by
  simp [covers, Bool.and_eq_true, and_assoc]

theorem crossPos_posAt (t : ChannelType) (c : Int) (j : Nat) :
    crossPos t (posAt t c j) = c := by
  cases t <;> simp only [crossPos, posAt]

theorem chanS0_congr (t : ChannelType) {c c' : Channel}
    (hs : c'.start = c.start) (he : c'.endp = c.endp) : chanS0 t c' = chanS0 t c := by
  cases t <;> simp only [chanS0, hs, he]

theorem chanE0_congr (t : ChannelType) {c c' : Channel}
    (hs : c'.start = c.start) (he : c'.endp = c.endp) : chanE0 t c' = chanE0 t c := by
  cases t <;> simp only [chanE0, hs, he]

theorem chanCommon_congr (t : ChannelType) {c c' : Channel}
    (hs : c'.start = c.start) (he : c'.endp = c.endp) : chanCommon t c' = chanCommon t c := by
  cases t <;> simp only [chanCommon, hs, he]

theorem chanLo_congr (t : ChannelType) {c c' : Channel}
    (hs : c'.start = c.start) (he : c'.endp = c.endp) : chanLo t c' = chanLo t c := by
  unfold chanLo
  rw [chanS0_congr t hs he, chanE0_congr t hs he]

theorem chanHi_congr (t : ChannelType) {c c' : Channel}
    (hs : c'.start = c.start) (he : c'.endp = c.endp) : chanHi t c' = chanHi t c := by
  unfold chanHi
  rw [chanS0_congr t hs he, chanE0_congr t hs he]

theorem covers_congr (t : ChannelType) {c c' : Channel}
    (hs : c'.start = c.start) (he : c'.endp = c.endp) (q : Pos) :
    covers t c' q = covers t c q := by
  unfold covers
  rw [chanCommon_congr t hs he, chanLo_congr t hs he, chanHi_congr t hs he]

theorem onLine_inDomain {g : ChannelGrid} {t : ChannelType} {common : Int} {q : Pos}
    (hc0 : 0 ≤ common) (hcb : common < (lineBound g t : Int))
    (h : onLine g t common q = true) : inDomain g q = true := by
  obtain ⟨hx, hp0, hplt⟩ := onLine_iff.mp h
  cases t
  · simp only [crossPos] at hx
    simp only [linePos] at hp0 hplt
    simp only [lineLen] at hplt
    simp only [lineBound] at hcb
    simp only [inDomain, Bool.and_eq_true, decide_eq_true_eq]
    refine ⟨⟨⟨by omega, by omega⟩, by omega⟩, by omega⟩
  · simp only [crossPos] at hx
    simp only [linePos] at hp0 hplt
    simp only [lineLen] at hplt
    simp only [lineBound] at hcb
    simp only [inDomain, Bool.and_eq_true, decide_eq_true_eq]
    refine ⟨⟨⟨by omega, by omega⟩, by omega⟩, by omega⟩

theorem covers_range {g : ChannelGrid} {ch : Channel} {q : Pos}
    (hlo0 : 0 ≤ chanLo g.chan_type ch)
    (hhi : chanHi g.chan_type ch < ((theLine g ch).length : Int))
    (hcov : covers g.chan_type ch q = true) :
    onLine g g.chan_type (chanCommon g.chan_type ch) q = true ∧
      theSt g ch ≤ (linePos g.chan_type q).toNat ∧
      (linePos g.chan_type q).toNat < theEn g ch := by
  obtain ⟨hx, hlo, hhi2⟩ := covers_iff.mp hcov
  have hst : theSt g ch = (chanLo g.chan_type ch).toNat :=
    pySliceStart_of_nonneg hlo0 (by omega)
  have hen : theEn g ch = (chanHi g.chan_type ch).toNat + 1 := by
    rw [theEn, pySliceStart_of_nonneg (by omega) (by omega)]
    omega
  have hlen : ((theLine g ch).length : Int) = (lineLen g g.chan_type : Int) := by
    rw [theLine, gridLine_length]
  refine ⟨onLine_iff.mpr ⟨hx, by omega, by omega⟩, by omega, by omega⟩

theorem theLine_length (g : ChannelGrid) (ch : Channel) :
    (theLine g ch).length = lineLen g g.chan_type :=
  gridLine_length g g.chan_type (chanCommon g.chan_type ch)

theorem theLine_getElem (g : ChannelGrid) (ch : Channel) (j : Nat)
    (h : j < (theLine g ch).length) :
    (theLine g ch)[j] = g.cells (posAt g.chan_type (chanCommon g.chan_type ch) j) :=
  gridLine_getElem g g.chan_type (chanCommon g.chan_type ch) j h

theorem covered_mem_span {g : ChannelGrid} {ch : Channel} {q : Pos}
    (honl : onLine g g.chan_type (chanCommon g.chan_type ch) q = true)
    (hrange : theSt g ch ≤ (linePos g.chan_type q).toNat ∧
      (linePos g.chan_type q).toNat < theEn g ch) :
    g.cells q ∈ theSpan g ch := by
  obtain ⟨hpos0, hposlt, hpq⟩ := onLine_elim honl
  apply mem_pySlice.mpr
  have hb : (linePos g.chan_type q).toNat < (theLine g ch).length := by
    rw [theLine_length]
    exact hposlt
  refine ⟨(linePos g.chan_type q).toNat, hrange.1, hrange.2, hb, ?_⟩
  exact (theLine_getElem g ch _ hb).trans (congrArg g.cells hpq)

theorem span_mem_covered {g : ChannelGrid} {ch : Channel}
    (hlo0 : 0 ≤ chanLo g.chan_type ch)
    (hhi : chanHi g.chan_type ch < ((theLine g ch).length : Int))
    (hc0 : 0 ≤ chanCommon g.chan_type ch)
    (hcb : chanCommon g.chan_type ch < (lineBound g g.chan_type : Int))
    {p : List (Option Channel)} (hp : p ∈ theSpan g ch) :
    ∃ q : Pos, inDomain g q = true ∧ covers g.chan_type ch q = true ∧ g.cells q = p := by
  obtain ⟨j, hja, hjb, hjlen, hjval⟩ := mem_pySlice.mp hp
  have hLoHi := chanLo_le_chanHi g.chan_type ch
  have hst : pySliceStart (theLine g ch).length (chanLo g.chan_type ch) =
      (chanLo g.chan_type ch).toNat :=
    pySliceStart_of_nonneg hlo0 (by omega)
  have hen : pySliceStart (theLine g ch).length (chanHi g.chan_type ch + 1) =
      (chanHi g.chan_type ch).toNat + 1 := by
    rw [pySliceStart_of_nonneg (by omega) (by omega)]
    omega
  rw [hst] at hja
  rw [hen] at hjb
  have hjlen' : j < lineLen g g.chan_type := by
    rw [theLine_length] at hjlen
    exact hjlen
  refine ⟨posAt g.chan_type (chanCommon g.chan_type ch) j, ?_, ?_, ?_⟩
  · exact onLine_inDomain hc0 hcb (onLine_posAt hjlen')
  · apply covers_iff.mpr
    rw [crossPos_posAt, linePos_posAt]
    refine ⟨rfl, by omega, by omega⟩
  · exact ((theLine_getElem g ch j hjlen).symm).trans hjval

/-! ## Claim C1: minimality of the assigned index -/

/-- C1 (amended): on any reachable grid, a successful placement whose
normalized span start is non-negative (the spec's stated precondition
`0 <= s`) is assigned the least index `k` such that no previously placed
segment occupies `k` in any cell of the covered span: every covered cell
is free at `k`, and below `k` every candidate is blocked by some occupied
covered in-domain cell.  Without the `0 <= s` restriction the claim fails,
because Python's `l[s:e+1]` slice is not the span `[s, e]` for `s < 0`. -/
theorem add_channel_min_index {g : ChannelGrid} {chs : List Channel} {ch ch' : Channel}
    {g' : ChannelGrid} (hr : ReachedWith g chs)
    (hok : g.add_channel ch = .ok (ch', g'))
    (hlo : 0 ≤ chanLo g.chan_type ch) :
    ∃ k : Nat, ch'.idx = some (k : Int) ∧
      (∀ q : Pos, covers g.chan_type ch q = true → (g.cells q).getD k none = none) ∧
      (∀ j : Nat, j < k →
        ∃ q : Pos, inDomain g q = true ∧ covers g.chan_type ch q = true ∧
          ((g.cells q).getD j none).isSome = true) := by
  have P := add_channel_ok_elim hok
  refine ⟨theK g ch, by rw [P.ch'_eq], ?_, ?_⟩
  · intro q hcov
    obtain ⟨honl, hrange⟩ := covers_range hlo P.hi_lt hcov
    have hmem : g.cells q ∈ theSpan g ch := covered_mem_span honl hrange
    have hfree := findIdx_not_occ (theSpan g ch)
    exact occAt_false_iff.mp hfree _ hmem
  · intro j hj
    have hocc : occAt (theSpan g ch) j = true := findIdx_min (by rw [← theK_eq]; exact hj)
    obtain ⟨p, hpmem, hpsome⟩ := occAt_true_iff.mp hocc
    obtain ⟨q, hdom, hcov, hcell⟩ :=
      span_mem_covered hlo P.hi_lt P.common_lb P.common_ub hpmem
    exact ⟨q, hdom, hcov, by rw [hcell]; exact hpsome⟩

/-! Concrete placements used by witnesses and counterexamples: a fresh
10 × 10 row-oriented grid, the segment A = (0,5)-(5,5), and the
negative-start segment X = (-2,5)-(5,5). -/

def cexG0 : ChannelGrid := ChannelGrid.empty 10 10 .Y

def cexA : Channel := ⟨⟨0, 5⟩, ⟨5, 5⟩, none, some "A"⟩

def cexA' : Channel := resChan cexG0 cexA

def cexG1 : ChannelGrid := nextGrid cexG0 cexA

def cexX : Channel := ⟨⟨-2, 5⟩, ⟨5, 5⟩, none, some "X"⟩

def cexX' : Channel := resChan cexG1 cexX

def cexG2 : ChannelGrid := nextGrid cexG1 cexX

theorem cex_step1 : cexG0.add_channel cexA = .ok (cexA', cexG1) := rfl

theorem cex_step2 : cexG1.add_channel cexX = .ok (cexX', cexG2) := rfl

theorem reached_cexG1 : ReachedWith cexG1 [cexA'] :=
  ReachedWith.step (ReachedWith.init 10 10 .Y) cex_step1

/-- Counterexample to C1 as literally stated: on the reachable grid holding
A = (0,5)-(5,5) at index 0, placing X = (-2,5)-(5,5) succeeds (the source
asserts only `s < len(l)`, which -2 passes, and `l[-2:6]` is the empty
slice) and X is assigned index 0 — yet A already occupies index 0 at the
covered in-domain cell (0,5) of X's span, so the smallest index free on
X's whole covered span is 1, not 0. -/
theorem add_channel_min_index_cex :
    ReachedWith cexG1 [cexA'] ∧
    cexG1.add_channel cexX = .ok (cexX', cexG2) ∧
    cexX'.idx = some 0 ∧
    inDomain cexG1 ⟨0, 5⟩ = true ∧
    covers cexG1.chan_type cexX ⟨0, 5⟩ = true ∧
    (cexG1.cells ⟨0, 5⟩).getD 0 none = some cexA' ∧
    cexA'.idx = some 0 :=
  ⟨reached_cexG1, cex_step2, by decide, by decide, by decide, by decide, by decide⟩

/-- Witness instantiating `add_channel_min_index` at the first concrete
placement. -/
theorem add_channel_min_index_witness :
    ∃ k : Nat, cexA'.idx = some (k : Int) ∧
      (∀ q : Pos, covers cexG0.chan_type cexA q = true → (cexG0.cells q).getD k none = none) ∧
      (∀ j : Nat, j < k →
        ∃ q : Pos, inDomain cexG0 q = true ∧ covers cexG0.chan_type cexA q = true ∧
          ((cexG0.cells q).getD j none).isSome = true) :=
  add_channel_min_index (ReachedWith.init 10 10 .Y) cex_step1 (by decide)

/-! ## Claim C2: the no-collision invariant -/

/-- Storage invariant: when every placement so far respected the spec's
precondition `0 <= s`, each placed channel carries some index `k` and is
stored at track `k` of every in-domain grid cell its span covers. -/
theorem placed_stored {g : ChannelGrid} {chs : List Channel} (hr : ReachedWith g chs) :
    (∀ c ∈ chs, 0 ≤ chanLo g.chan_type c) →
    ∀ c ∈ chs, ∃ k : Nat, c.idx = some (k : Int) ∧
      ∀ q : Pos, inDomain g q = true → covers g.chan_type c q = true →
        (g.cells q).getD k none = some c := by
  induction hr with
  | init w h t =>
    intro _ c hc
    simp at hc
  | @step g chs ch ch' g' hr hok ih =>
    intro hnn
    have P := add_channel_ok_elim hok
    have hdomEq : ∀ q, inDomain g' q = inDomain g q := by
      intro q
      unfold inDomain
      rw [P.sizeX_eq, P.sizeY_eq]
    have htype := P.type_eq
    have hsA : ch'.start = ch.start := by rw [P.ch'_eq]
    have heA : ch'.endp = ch.endp := by rw [P.ch'_eq]
    have hnn' : ∀ c ∈ chs, 0 ≤ chanLo g.chan_type c := fun c hc => by
      have := hnn c (List.mem_append.mpr (Or.inl hc))
      rwa [htype] at this
    have hloch : 0 ≤ chanLo g.chan_type ch := by
      have := hnn ch' (List.mem_append.mpr (Or.inr (List.mem_singleton_self _)))
      rwa [htype, chanLo_congr g.chan_type hsA heA] at this
    intro c hc
    rcases List.mem_append.mp hc with hc | hc
    · obtain ⟨k, hkidx, hkstore⟩ := ih hnn' c hc
      refine ⟨k, hkidx, ?_⟩
      intro q hdom hcov
      rw [htype] at hcov
      rw [hdomEq] at hdom
      have hold := hkstore q hdom hcov
      rw [P.cells_eq q]
      by_cases honl : onLine g g.chan_type (chanCommon g.chan_type ch) q = true
      · rw [if_pos honl]
        have hklen : k < (g.cells q).length := getD_isSome_lt (by rw [hold]; rfl)
        by_cases hrange : theSt g ch ≤ (linePos g.chan_type q).toNat ∧
            (linePos g.chan_type q).toNat < theEn g ch
        · rw [if_pos hrange]
          have hmem : g.cells q ∈ theSpan g ch := covered_mem_span honl hrange
          have hfree : (g.cells q).getD (theK g ch) none = none :=
            occAt_false_iff.mp (findIdx_not_occ (theSpan g ch)) _ hmem
          have hkne : theK g ch ≠ k := by
            intro he
            rw [he, hold] at hfree
            exact absurd hfree (by simp)
          rw [getD_set_ne _ hkne, padTo_getD_lt _ hklen]
          exact hold
        · rw [if_neg hrange, padTo_getD_lt _ hklen]
          exact hold
      · rw [if_neg honl]
        exact hold
    · have hc' : c = ch' := by simpa using hc
      subst hc'
      refine ⟨theK g ch, by rw [P.ch'_eq], ?_⟩
      intro q hdom hcov
      rw [htype, covers_congr g.chan_type hsA heA] at hcov
      obtain ⟨honl, hrange⟩ := covers_range hloch P.hi_lt hcov
      rw [P.cells_eq q, if_pos honl, if_pos hrange]
      have hlen : theK g ch < (padTo (g.cells q) (theK g ch + 1)).length := by
        rw [padTo_length]
        omega
      rw [getD_set_self _ hlen]

/-- C2 (amended): on any grid reachable by successful placements that all
respect the spec's precondition `0 <= s`, two distinct placed segments
whose spans share an in-domain grid cell carry different indices.
Without the `0 <= s` restriction the claim fails, because a
negative-start segment is scanned and stored over the (possibly empty)
Python slice rather than over its span. -/
theorem add_channel_no_collision {g : ChannelGrid} {chs : List Channel}
    (hr : ReachedWith g chs)
    (hnn : ∀ c ∈ chs, 0 ≤ chanLo g.chan_type c)
    {c₁ c₂ : Channel} (h1 : c₁ ∈ chs) (h2 : c₂ ∈ chs) (hne : c₁ ≠ c₂)
    {q : Pos} (hdom : inDomain g q = true)
    (hcov1 : covers g.chan_type c₁ q = true) (hcov2 : covers g.chan_type c₂ q = true) :
    c₁.idx ≠ c₂.idx := by
  obtain ⟨k₁, hidx1, hst1⟩ := placed_stored hr hnn c₁ h1
  obtain ⟨k₂, hidx2, hst2⟩ := placed_stored hr hnn c₂ h2
  intro he
  have hk : k₁ = k₂ := by
    rw [hidx1, hidx2] at he
    exact_mod_cast Option.some.inj he
  subst hk
  have e1 := hst1 q hdom hcov1
  have e2 := hst2 q hdom hcov2
  rw [e1] at e2
  exact hne (Option.some.inj e2)

/-- Counterexample to C2 as literally stated: after placing A = (0,5)-(5,5)
(index 0) and then X = (-2,5)-(5,5) (also index 0: the slice `l[-2:6]` is
empty, so the search never sees A), both placed segments cover the
in-domain cell (0,5) yet carry the same index. -/
theorem add_channel_no_collision_cex :
    ReachedWith cexG2 [cexA', cexX'] ∧
    cexA' ≠ cexX' ∧
    inDomain cexG2 ⟨0, 5⟩ = true ∧
    covers cexG2.chan_type cexA' ⟨0, 5⟩ = true ∧
    covers cexG2.chan_type cexX' ⟨0, 5⟩ = true ∧
    cexA'.idx = cexX'.idx :=
  ⟨ReachedWith.step reached_cexG1 cex_step2, by decide, by decide, by decide,
    by decide, by decide⟩

/-! A second concrete placement respecting `0 <= s`: B = (3,5)-(8,5)
overlaps A on cells (3,5)..(5,5). -/

def cexB : Channel := ⟨⟨3, 5⟩, ⟨8, 5⟩, none, some "B"⟩

def cexB' : Channel := resChan cexG1 cexB

def cexG1b : ChannelGrid := nextGrid cexG1 cexB

theorem cex_step1b : cexG1.add_channel cexB = .ok (cexB', cexG1b) := rfl

theorem reached_cexG1b : ReachedWith cexG1b [cexA', cexB'] :=
  ReachedWith.step reached_cexG1 cex_step1b

/-- Witness instantiating `add_channel_no_collision` on A and B, which
overlap at the in-domain cell (4,5). -/
theorem add_channel_no_collision_witness : cexA'.idx ≠ cexB'.idx :=
  add_channel_no_collision reached_cexG1b (by decide) (by decide) (by decide)
    (by decide) (q := ⟨4, 5⟩) (by decide) (by decide) (by decide)

/-! ## Claim C3: rectangularity -/

theorem inDomain_onLine_iff {g : ChannelGrid} {t : ChannelType} {common : Int} {q : Pos}
    (hdom : inDomain g q = true) :
    (onLine g t common q = true) ↔ crossPos t q = common := by
  simp only [inDomain, Bool.and_eq_true, decide_eq_true_eq] at hdom
  obtain ⟨⟨⟨hx0, hxlt⟩, hy0⟩, hylt⟩ := hdom
  rw [onLine_iff]
  cases t
  · simp only [linePos, lineLen]
    exact ⟨fun h => h.1, fun h => ⟨h, by omega, by omega⟩⟩
  · simp only [linePos, lineLen]
    exact ⟨fun h => h.1, fun h => ⟨h, by omega, by omega⟩⟩

theorem branch_length (l : List (Option Channel)) (k : Nat) (v : Option Channel)
    (b : Prop) [Decidable b] :
    (if b then (padTo l (k + 1)).set k v else padTo l (k + 1)).length =
      max l.length (k + 1) := by
  split
  · rw [List.length_set, padTo_length]
  · rw [padTo_length]

/-- C3 (amended): after any sequence of successful placements, any two
in-domain cells on the same line (equal cross coordinate: same row of a
row-oriented grid, same column of a column-oriented one) have track lists
of equal length.  The grid-wide statement of the claim fails, since a
placement pads only its own line; see the counterexample. -/
theorem add_channel_line_rect {g : ChannelGrid} {chs : List Channel}
    (hr : ReachedWith g chs) :
    ∀ q₁ q₂ : Pos, inDomain g q₁ = true → inDomain g q₂ = true →
      crossPos g.chan_type q₁ = crossPos g.chan_type q₂ →
      (g.cells q₁).length = (g.cells q₂).length := by
  induction hr with
  | init w h t =>
    intro q₁ q₂ _ _ _
    rfl
  | @step g chs ch ch' g' hr hok ih =>
    intro q₁ q₂ h1 h2 hline
    have A := add_channel_ok_elim hok
    have hdomEq : ∀ q, inDomain g' q = inDomain g q := by
      intro q
      unfold inDomain
      rw [A.sizeX_eq, A.sizeY_eq]
    rw [hdomEq] at h1 h2
    rw [A.type_eq] at hline
    rw [A.cells_eq q₁, A.cells_eq q₂]
    have hON : (onLine g g.chan_type (chanCommon g.chan_type ch) q₁ = true) ↔
        (onLine g g.chan_type (chanCommon g.chan_type ch) q₂ = true) := by
      rw [inDomain_onLine_iff h1, inDomain_onLine_iff h2, hline]
    by_cases hon : onLine g g.chan_type (chanCommon g.chan_type ch) q₁ = true
    · rw [if_pos hon, if_pos (hON.mp hon), branch_length, branch_length,
        ih q₁ q₂ h1 h2 hline]
    · rw [if_neg hon, if_neg (fun hh => hon (hON.mpr hh))]
      exact ih q₁ q₂ h1 h2 hline

/-- Counterexample to C3 as literally stated: after placing A on row 5 of
a fresh 10 × 10 row-oriented grid, the in-domain cell (0,5) has one track
while (0,6) still has none — cells of the whole grid do not share one
track-list length. -/
theorem add_channel_line_rect_cex :
    ReachedWith cexG1 [cexA'] ∧
    inDomain cexG1 ⟨0, 5⟩ = true ∧
    inDomain cexG1 ⟨0, 6⟩ = true ∧
    (cexG1.cells ⟨0, 5⟩).length = 1 ∧
    (cexG1.cells ⟨0, 6⟩).length = 0 :=
  ⟨reached_cexG1, by decide, by decide, by decide, by decide⟩

/-- Witness instantiating `add_channel_line_rect` at two cells of row 5. -/
theorem add_channel_line_rect_witness :
    (cexG1.cells ⟨0, 5⟩).length = (cexG1.cells ⟨7, 5⟩).length :=
  add_channel_line_rect reached_cexG1 ⟨0, 5⟩ ⟨7, 5⟩ (by decide) (by decide) (by decide)

/-! ## Claim C4: post-state of a successful placement -/

theorem range_covers {g : ChannelGrid} {ch : Channel} {q : Pos}
    (hlo0 : 0 ≤ chanLo g.chan_type ch)
    (hhi : chanHi g.chan_type ch < ((theLine g ch).length : Int))
    (honl : onLine g g.chan_type (chanCommon g.chan_type ch) q = true)
    (hrange : theSt g ch ≤ (linePos g.chan_type q).toNat ∧
      (linePos g.chan_type q).toNat < theEn g ch) :
    covers g.chan_type ch q = true := by
  have hLoHi := chanLo_le_chanHi g.chan_type ch
  have hst : theSt g ch = (chanLo g.chan_type ch).toNat :=
    pySliceStart_of_nonneg hlo0 (by omega)
  have hen : theEn g ch = (chanHi g.chan_type ch).toNat + 1 := by
    rw [theEn, pySliceStart_of_nonneg (by omega) (by omega)]
    omega
  obtain ⟨hcross, hp0, _⟩ := onLine_iff.mp honl
  obtain ⟨hr1, hr2⟩ := hrange
  rw [hst] at hr1
  rw [hen] at hr2
  exact covers_iff.mpr ⟨hcross, by omega, by omega⟩

theorem padTo_getD_at (l : List (Option Channel)) (k : Nat) :
    (padTo l (k + 1)).getD k none = l.getD k none := by
  rcases Nat.lt_or_ge k l.length with h | h
  · exact padTo_getD_lt _ h
  · rw [padTo_getD_ge _ h, List.getD_eq_default _ _ h]

/-- C4 (amended): a successful placement with accepted index `k` and a
non-negative normalized span start (the spec's precondition `0 <= s`)
returns the input segment re-indexed with `k`; every cell of the affected
line grows to length `max (old length) (k+1)` and its fresh entries are
`None` (apart from the stored index); the re-indexed segment is stored at
position `k` of every covered cell; and a line cell outside the span
keeps at position `k` whatever it held before (so `None` exactly when it
was previously empty there, not unconditionally as the claim states —
see the counterexample). -/
theorem add_channel_post {g : ChannelGrid} {ch ch' : Channel} {g' : ChannelGrid}
    (hok : g.add_channel ch = .ok (ch', g'))
    (hlo : 0 ≤ chanLo g.chan_type ch) :
    ∃ k : Nat,
      ch' = ⟨ch.start, ch.endp, some (k : Int), ch.id_override⟩ ∧
      (∀ q : Pos, onLine g g.chan_type (chanCommon g.chan_type ch) q = true →
        (g'.cells q).length = max (g.cells q).length (k + 1)) ∧
      (∀ q : Pos, onLine g g.chan_type (chanCommon g.chan_type ch) q = true →
        ∀ j : Nat, (g.cells q).length ≤ j → j ≠ k →
          (g'.cells q).getD j none = none) ∧
      (∀ q : Pos, covers g.chan_type ch q = true →
        (g'.cells q).getD k none = some ch') ∧
      (∀ q : Pos, onLine g g.chan_type (chanCommon g.chan_type ch) q = true →
        covers g.chan_type ch q = false →
        (g'.cells q).getD k none = (g.cells q).getD k none) ∧
      (∀ q : Pos, onLine g g.chan_type (chanCommon g.chan_type ch) q = false →
        g'.cells q = g.cells q) := by
  have P := add_channel_ok_elim hok
  refine ⟨theK g ch, P.ch'_eq, ?_, ?_, ?_, ?_, ?_⟩
  · intro q honl
    rw [P.cells_eq q, if_pos honl, branch_length]
  · intro q honl j hjlen hjk
    rw [P.cells_eq q, if_pos honl]
    split
    · rw [getD_set_ne _ (fun he => hjk he.symm), padTo_getD_ge _ hjlen]
    · rw [padTo_getD_ge _ hjlen]
  · intro q hcov
    obtain ⟨honl, hrange⟩ := covers_range hlo P.hi_lt hcov
    rw [P.cells_eq q, if_pos honl, if_pos hrange]
    have hlen : theK g ch < (padTo (g.cells q) (theK g ch + 1)).length := by
      rw [padTo_length]
      omega
    rw [getD_set_self _ hlen]
  · intro q honl hncov
    rw [P.cells_eq q, if_pos honl]
    have hnr : ¬(theSt g ch ≤ (linePos g.chan_type q).toNat ∧
        (linePos g.chan_type q).toNat < theEn g ch) := by
      intro hrange
      rw [range_covers hlo P.hi_lt honl hrange] at hncov
      exact absurd hncov (by simp)
    rw [if_neg hnr]
    exact padTo_getD_at _ _
  · intro q honl
    rw [P.cells_eq q, if_neg (by rw [honl]; simp)]

/-! The placement D = (6,5)-(8,5) after A: accepted index 0, disjoint from
A, same line. -/

def cexD : Channel := ⟨⟨6, 5⟩, ⟨8, 5⟩, none, some "D"⟩

def cexD' : Channel := resChan cexG1 cexD

def cexG1d : ChannelGrid := nextGrid cexG1 cexD

theorem cex_step1d : cexG1.add_channel cexD = .ok (cexD', cexG1d) := rfl

/-- Counterexample to C4 as literally stated: placing D = (6,5)-(8,5) on
the reachable grid holding A = (0,5)-(5,5) succeeds with accepted index 0,
but the line cell (0,5) outside D's span `[6, 8]` holds A — not `None` —
at position 0 in the post-state. -/
theorem add_channel_post_cex :
    ReachedWith cexG1 [cexA'] ∧
    cexG1.add_channel cexD = .ok (cexD', cexG1d) ∧
    cexD'.idx = some 0 ∧
    onLine cexG1 cexG1.chan_type (chanCommon cexG1.chan_type cexD) ⟨0, 5⟩ = true ∧
    covers cexG1.chan_type cexD ⟨0, 5⟩ = false ∧
    (cexG1d.cells ⟨0, 5⟩).getD 0 none = some cexA' ∧
    some cexA' ≠ (none : Option Channel) :=
  ⟨reached_cexG1, cex_step1d, by decide, by decide, by decide, by decide, by decide⟩

/-- Witness instantiating `add_channel_post` at the placement of D. -/
theorem add_channel_post_witness :
    ∃ k : Nat,
      cexD' = ⟨cexD.start, cexD.endp, some (k : Int), cexD.id_override⟩ ∧
      (∀ q : Pos, onLine cexG1 cexG1.chan_type (chanCommon cexG1.chan_type cexD) q = true →
        (cexG1d.cells q).length = max (cexG1.cells q).length (k + 1)) ∧
      (∀ q : Pos, onLine cexG1 cexG1.chan_type (chanCommon cexG1.chan_type cexD) q = true →
        ∀ j : Nat, (cexG1.cells q).length ≤ j → j ≠ k →
          (cexG1d.cells q).getD j none = none) ∧
      (∀ q : Pos, covers cexG1.chan_type cexD q = true →
        (cexG1d.cells q).getD k none = some cexD') ∧
      (∀ q : Pos, onLine cexG1 cexG1.chan_type (chanCommon cexG1.chan_type cexD) q = true →
        covers cexG1.chan_type cexD q = false →
        (cexG1d.cells q).getD k none = (cexG1.cells q).getD k none) ∧
      (∀ q : Pos, onLine cexG1 cexG1.chan_type (chanCommon cexG1.chan_type cexD) q = false →
        cexG1d.cells q = cexG1.cells q) :=
  add_channel_post cex_step1d (by decide)

/-! ## Claim C5: orientation-mismatch handling -/

/-- C5: for a segment with no index whose orientation differs from the
grid's, `add_channel` raises the orientation `TypeError` when the segment
has non-zero length (before touching any cell, so no state is produced
and the grid value is unchanged), and otherwise — zero length — accepts
it and runs the normal placement body (`addChannelCore`, with the type
attribute overwritten to the grid's type).  The `static_property`
behaviour letting `ch.type = self.chan_type` go through is modelled from
the spec. -/
theorem add_channel_type_mismatch {g : ChannelGrid} {ch : Channel}
    (hidx : ch.idx = none) (hty : ch.type ≠ g.chan_type) :
    (ch.length ≠ 0 → g.add_channel ch = .error .typeMismatch) ∧
    (ch.length = 0 → g.add_channel ch = g.addChannelCore ch) := by
  constructor
  · intro hlen
    unfold ChannelGrid.add_channel
    rw [if_neg (by simp [hidx]), if_pos ⟨hty, hlen⟩]
  · intro hlen
    unfold ChannelGrid.add_channel
    rw [if_neg (by simp [hidx]), if_neg (by simp [hlen])]

/-! Concrete mismatched segments on the row-oriented grid: M is a
column segment of length 3, Z a zero-length segment. -/

def cexM : Channel := ⟨⟨2, 1⟩, ⟨2, 4⟩, none, some "M"⟩

def cexZ : Channel := ⟨⟨4, 6⟩, ⟨4, 6⟩, none, some "Z"⟩

/-- Witness instantiating `add_channel_type_mismatch` on both branches:
the non-zero-length mismatch M raises the `TypeError`, the zero-length
mismatch Z is placed normally. -/
theorem add_channel_type_mismatch_witness :
    cexG0.add_channel cexM = .error .typeMismatch ∧
    cexG0.add_channel cexZ = cexG0.addChannelCore cexZ :=
  ⟨(add_channel_type_mismatch (by decide) (by decide)).1 (by decide),
   (add_channel_type_mismatch (by decide) (by decide)).2 (by decide)⟩

/-! ## Claim C6: NotStraight at construction -/

/-- C6: `Channel.__new__` fails with `ChannelNotStraight` exactly when the
two endpoints share neither coordinate, and otherwise succeeds, yielding
the segment with the given start, end, optional index and label. -/
theorem mkChannel_not_straight_iff (s e : Pos) (i : Option Int) (l : Option String) :
    (mkChannel s e i l = .error .notStraight ↔ s.x ≠ e.x ∧ s.y ≠ e.y) ∧
    ((s.x = e.x ∨ s.y = e.y) → mkChannel s e i l = .ok ⟨s, e, i, l⟩) := by
  refine ⟨⟨?_, ?_⟩, mkChannel_ok s e i l⟩
  · intro h
    by_contra hn
    unfold mkChannel at h
    rw [if_neg hn] at h
    exact absurd h (by simp)
  · intro hss
    unfold mkChannel
    rw [if_pos hss]

/-- Witness instantiating `mkChannel_not_straight_iff` at a straight pair
of points: the success branch produces exactly the given fields. -/
theorem mkChannel_not_straight_iff_witness :
    ((⟨0, 5⟩ : Pos).x = (⟨3, 5⟩ : Pos).x ∨ (⟨0, 5⟩ : Pos).y = (⟨3, 5⟩ : Pos).y) ∧
    mkChannel ⟨0, 5⟩ ⟨3, 5⟩ (some 7) (some "W") =
      .ok ⟨⟨0, 5⟩, ⟨3, 5⟩, some 7, some "W"⟩ :=
  ⟨by decide,
   (mkChannel_not_straight_iff ⟨0, 5⟩ ⟨3, 5⟩ (some 7) (some "W")).2 (by decide)⟩

/-! ## Claim C8: the derived accessors -/

theorem type_eq_X_iff (c : Channel) : c.type = .X ↔ c.start.x = c.endp.x := by
  unfold Channel.type
  split
  · simp [*]
  · simp [*]

theorem type_eq_Y_iff (c : Channel) : c.type = .Y ↔ c.start.x ≠ c.endp.x := by
  unfold Channel.type
  split
  · simp [*]
  · simp [*]

/-- C8: for every straight segment the derived accessors match their
closed forms: the type is `X` (column) exactly on equal x coordinates —
in particular a zero-length segment is classified `X` —, `common` is the
coordinate shared by both endpoints, `start0`/`end0` are the coordinates
along the non-constant axis, the direction is `DEC` exactly when
`end0 < start0`, and the length is `abs (end0 - start0)`. -/
theorem channel_accessors (c : Channel) (h : Straight c) :
    (c.start = c.endp → c.type = .X) ∧
    (c.type = if c.start.x = c.endp.x then ChannelType.X else ChannelType.Y) ∧
    (c.type = .X → c.common = c.start.x ∧ c.common = c.endp.x ∧
      c.start0 = c.start.y ∧ c.end0 = c.endp.y) ∧
    (c.type = .Y → c.common = c.start.y ∧ c.common = c.endp.y ∧
      c.start0 = c.start.x ∧ c.end0 = c.endp.x) ∧
    (c.direction = .DEC ↔ c.end0 < c.start0) ∧
    c.length = |c.end0 - c.start0| := by
  refine ⟨?_, rfl, ?_, ?_, ?_, rfl⟩
  · intro he
    exact (type_eq_X_iff c).mpr (by rw [he])
  · intro hx
    have hxx := (type_eq_X_iff c).mp hx
    unfold Channel.common Channel.start0 Channel.end0
    rw [hx]
    simp [hxx]
  · intro hy
    have hxx := (type_eq_Y_iff c).mp hy
    have hyy : c.start.y = c.endp.y := h.resolve_left hxx
    unfold Channel.common Channel.start0 Channel.end0
    rw [hy]
    simp [hyy]
  · unfold Channel.direction
    split
    · simp [*]
    · simp [*]

/-- Witness instantiating `channel_accessors` at the decreasing row
segment (10,0)-(0,0). -/
theorem channel_accessors_witness :
    Straight (⟨⟨10, 0⟩, ⟨0, 0⟩, none, none⟩ : Channel) ∧
    ((⟨⟨10, 0⟩, ⟨0, 0⟩, none, none⟩ : Channel).direction = .DEC ↔
      (⟨⟨10, 0⟩, ⟨0, 0⟩, none, none⟩ : Channel).end0 <
        (⟨⟨10, 0⟩, ⟨0, 0⟩, none, none⟩ : Channel).start0) :=
  ⟨by decide,
   (channel_accessors ⟨⟨10, 0⟩, ⟨0, 0⟩, none, none⟩ (by decide)).2.2.2.2.1⟩

/-! ## Claim C9: update_idx is a pure functional update -/

/-- C9: `update_idx` returns a new segment with the same start, end and
label but the given index; it is a pure function of the (immutable —
`Channel` is a namedtuple) original value, which therefore keeps its own
index: the result is a fresh record and the input record is not written
through. -/
theorem update_idx_pure (c : Channel) (i : Int) (h : Straight c) :
    c.update_idx i = .ok ⟨c.start, c.endp, some i, c.id_override⟩ ∧
    ∀ c' : Channel, c.update_idx i = .ok c' →
      c'.start = c.start ∧ c'.endp = c.endp ∧ c'.id_override = c.id_override ∧
      c'.idx = some i := by
  have hok : c.update_idx i = .ok ⟨c.start, c.endp, some i, c.id_override⟩ :=
    mkChannel_ok c.start c.endp (some i) c.id_override h
  refine ⟨hok, ?_⟩
  intro c' h'
  rw [hok] at h'
  have he := Except.ok.inj h'
  subst he
  exact ⟨rfl, rfl, rfl, rfl⟩

/-- Witness instantiating `update_idx_pure` at the doctest's channel
(1,4)-(1,8) with index 0, re-indexed to 2: the original record still
carries index 0. -/
theorem update_idx_pure_witness :
    (⟨⟨1, 4⟩, ⟨1, 8⟩, some 0, none⟩ : Channel).update_idx 2 =
      .ok ⟨⟨1, 4⟩, ⟨1, 8⟩, some 2, none⟩ ∧
    (⟨⟨1, 4⟩, ⟨1, 8⟩, some 0, none⟩ : Channel).idx = some 0 :=
  ⟨(update_idx_pure ⟨⟨1, 4⟩, ⟨1, 8⟩, some 0, none⟩ 2 (by decide)).1, by decide⟩

/-! ## Claim C10: the frame property of a placement -/

theorem chanCommon_eq_common (c : Channel) : chanCommon c.type c = c.common := by
  unfold Channel.common
  cases h : c.type
  · simp [chanCommon]
  · simp [chanCommon]

/-- C10: a successful placement of an orientation-matching segment leaves
every cell outside the affected line — the row (for a row grid) or column
(for a column grid) at the segment's common coordinate — exactly
unchanged. -/
theorem add_channel_frame {g : ChannelGrid} {ch ch' : Channel} {g' : ChannelGrid}
    (hok : g.add_channel ch = .ok (ch', g'))
    (hmatch : ch.type = g.chan_type) :
    ∀ q : Pos, crossPos g.chan_type q ≠ ch.common → g'.cells q = g.cells q := by
  intro q hq
  have P := add_channel_ok_elim hok
  have hcomm : chanCommon g.chan_type ch = ch.common := by
    rw [← hmatch, chanCommon_eq_common]
  rw [P.cells_eq q, if_neg (fun honl => hq (((onLine_iff.mp honl).1).trans hcomm))]

/-- Witness instantiating `add_channel_frame`: after placing A on row 5,
the cell (0,6) of row 6 is untouched. -/
theorem add_channel_frame_witness : cexG1.cells ⟨0, 6⟩ = cexG0.cells ⟨0, 6⟩ :=
  add_channel_frame cex_step1 (by decide) ⟨0, 6⟩ (by decide)

/-! ## Claim C7: the worked packing scenario -/

def scG0 : ChannelGrid := ChannelGrid.empty 10 10 .Y

def scA : Channel := ⟨⟨0, 5⟩, ⟨3, 5⟩, none, some "A"⟩

def scB : Channel := ⟨⟨4, 5⟩, ⟨6, 5⟩, none, some "B"⟩

def scC : Channel := ⟨⟨4, 5⟩, ⟨6, 5⟩, none, some "C"⟩

def scD : Channel := ⟨⟨4, 6⟩, ⟨6, 6⟩, none, some "D"⟩

def scE : Channel := ⟨⟨2, 5⟩, ⟨5, 5⟩, none, some "E"⟩

def scF : Channel := ⟨⟨0, 5⟩, ⟨2, 5⟩, none, some "F"⟩

def scG : Channel := ⟨⟨0, 5⟩, ⟨6, 5⟩, none, some "G"⟩

def scg1 : ChannelGrid := nextGrid scG0 scA

def scg2 : ChannelGrid := nextGrid scg1 scB

def scg3 : ChannelGrid := nextGrid scg2 scC

def scg4 : ChannelGrid := nextGrid scg3 scD

def scg5 : ChannelGrid := nextGrid scg4 scE

def scg6 : ChannelGrid := nextGrid scg5 scF

/-- C7: on a fresh row-oriented grid, placing in order A = (0,5)-(3,5),
B = (4,5)-(6,5), C = (4,5)-(6,5), D = (4,6)-(6,6) (adjacent row),
E = (2,5)-(5,5), F = (0,5)-(2,5) and G = (0,5)-(6,5) assigns indices
0, 0, 1, 0, 2, 1 and 3 respectively (the source doctest scenario). -/
theorem packing_scenario :
    addIdx scG0 scA = some 0 ∧
    addIdx scg1 scB = some 0 ∧
    addIdx scg2 scC = some 1 ∧
    addIdx scg3 scD = some 0 ∧
    addIdx scg4 scE = some 2 ∧
    addIdx scg5 scF = some 1 ∧
    addIdx scg6 scG = some 3 := by
  refine ⟨by decide, by decide, by decide, by decide, by decide, by decide, by decide⟩

end RRGraph
